import Mathlib

/-!
# Verification of the virtuaid-backend video emotion-analysis pipeline

Shallow embedding of the emotion-analysis core of the repository:

* `EmotionDetector.extract_frames` (src/analysis/utils/emotion_detector.py),
* `EmotionDetector.load_model`, `EmotionDetector.process_frame`,
  `EmotionDetector.analyze_video` (same file),
* `create_emotion_timeline` and the aggregation loop of
  `analyze_video_emotions` (src/analysis/tasks.py),
* the dominant-emotion computation of `EmotionAnalysisSummary.save`
  (src/analysis/models.py).

Python floats are modelled as `ℚ` (all the arithmetic of the pipeline is
exact on the inputs we consider), frames as opaque tokens, and the stateful
detector object as explicit state passing.
-/

namespace VirtuAid

/-- The configured emotion label list (`self.emotions` in `EmotionDetector`
and `supported_emotions` in `analyze_video_emotions`). -/
def supported_emotions : List String := ["angry", "sad", "happy"]

/-- A decoded video frame; contents are opaque for the pipeline, so we
identify a frame by a token. -/
structure Frame where
  data : ℕ
deriving DecidableEq, Repr

/-- A video file as observed through `cv2.VideoCapture`:
whether the path exists (`os.path.exists`), whether the capture opens
(`video.isOpened()`), the reported properties `CAP_PROP_FPS` and
`CAP_PROP_FRAME_COUNT`, and the successive frames yielded by
`video.read()`. -/
structure Video where
  path_exists : Bool
  opens : Bool
  fps : ℚ
  frame_count : ℤ
  frames : List Frame
deriving DecidableEq, Repr

/-- Python's `int()` applied to a float: truncation toward zero. -/
def pyInt (q : ℚ) : ℤ := if 0 ≤ q then ⌊q⌋ else ⌈q⌉

/-- `frame_interval = max(1, int(fps / frame_rate))`
(emotion_detector.py line 161). -/
def frame_interval (fps frame_rate : ℚ) : ℕ :=
  (max 1 (pyInt (fps / frame_rate))).toNat

/-- The frame-extraction `while` loop of `extract_frames`
(emotion_detector.py lines 171-182): `current_frame` is the running index
`i`; frame `i` is kept whenever `i % interval == 0`, with timestamp
`i / fps`. -/
def sampleLoop (fps : ℚ) (interval : ℕ) : ℕ → List Frame → List (Frame × ℚ)
  | _, [] => []
  | i, f :: fs =>
    if i % interval = 0 then (f, (i : ℚ) / fps) :: sampleLoop fps interval (i + 1) fs
    else sampleLoop fps interval (i + 1) fs

/-- `EmotionDetector.extract_frames` (emotion_detector.py lines 125-196):
returns `[]` when the file does not exist, when the capture does not open,
or when `fps <= 0 or frame_count <= 0`; otherwise walks the frames with
`sampleLoop`. -/
def extract_frames (v : Video) (frame_rate : ℚ) : List (Frame × ℚ) :=
  if v.path_exists = false then []
  else if v.opens = false then []
  else if v.fps ≤ 0 ∨ v.frame_count ≤ 0 then []
  else sampleLoop v.fps (frame_interval v.fps frame_rate) 0 v.frames

/-- Modelled from the spec: the sampling interval as the spec words it,
`interval = max(1, round(fps / target_rate))` — rounding instead of the
code's truncation.  Used only to compare the spec's sampling rule against
`extract_frames`. -/
def spec_frame_interval (fps frame_rate : ℚ) : ℕ :=
  (max 1 (round (fps / frame_rate))).toNat

/-- Modelled from the spec: the Frame Sampler as the spec words it —
identical to `extract_frames` except that the interval is computed by
rounding (`spec_frame_interval`). -/
def spec_extract_frames (v : Video) (frame_rate : ℚ) : List (Frame × ℚ) :=
  if v.path_exists = false then []
  else if v.opens = false then []
  else if v.fps ≤ 0 ∨ v.frame_count ≤ 0 then []
  else sampleLoop v.fps (spec_frame_interval v.fps frame_rate) 0 v.frames

/-- A 3-frame video at 3 fps. -/
def vC1 : Video :=
  { path_exists := true, opens := true, fps := 3, frame_count := 3,
    frames := [⟨0⟩, ⟨1⟩, ⟨2⟩] }

lemma frame_interval_pos (fps frame_rate : ℚ) : 1 ≤ frame_interval fps frame_rate := by
  unfold frame_interval
  have h : (1 : ℤ) ≤ max 1 (pyInt (fps / frame_rate)) := le_max_left _ _
  omega

/-- A 5-frame video whose capture opens but reports `fps = 0`. -/
def vC2 : Video :=
  { path_exists := true, opens := true, fps := 0, frame_count := 5,
    frames := [⟨0⟩, ⟨1⟩, ⟨2⟩, ⟨3⟩, ⟨4⟩] }

lemma extract_frames_vC1 :
    extract_frames vC1 2 = [(⟨0⟩, 0), (⟨1⟩, 1/3), (⟨2⟩, 2/3)] := by
  norm_num [extract_frames, sampleLoop, frame_interval, pyInt, vC1]

lemma spec_extract_frames_vC1 :
    spec_extract_frames vC1 2 = [(⟨0⟩, 0), (⟨2⟩, 2/3)] := by
  norm_num [spec_extract_frames, sampleLoop, spec_frame_interval, vC1, round_eq]
  rfl

/-- Unfolding of the extraction loop: the kept entries are exactly the
positions `j` of the frame list with `(i + j) % n = 0`, each paired with
timestamp `(i + j) / fps`. -/
lemma sampleLoop_eq (fps : ℚ) (n : ℕ) (i : ℕ) (fs : List Frame) :
    sampleLoop fps n i fs =
      (List.range fs.length).filterMap fun j =>
        if (i + j) % n = 0 then some (fs.getD j ⟨0⟩, ((i + j : ℕ) : ℚ) / fps)
        else none := by
  induction fs generalizing i with
  | nil => simp [sampleLoop]
  | cons f fs ih =>
      have key : List.filterMap
          (fun j => if (i + 1 + j) % n = 0 then
            some (fs.getD j ⟨0⟩, ((i + 1 + j : ℕ) : ℚ) / fps) else none)
          (List.range fs.length) =
        List.filterMap
          ((fun j => if (i + j) % n = 0 then
            some ((f :: fs).getD j ⟨0⟩, ((i + j : ℕ) : ℚ) / fps) else none) ∘ Nat.succ)
          (List.range fs.length) := by
        refine List.filterMap_congr fun j _ => ?_
        have h2 : i + (j + 1) = i + 1 + j := by omega
        simp only [Function.comp_apply, Nat.succ_eq_add_one, h2, List.getD_cons_succ]
      rw [sampleLoop, ih (i + 1)]
      rw [List.length_cons, List.range_succ_eq_map, List.filterMap_cons,
        List.filterMap_map, ← key]
      by_cases h : i % n = 0
      · simp [h]
      · simp [h]

/-- Claim C1 (amended): under positive fps, frame count and target rate, the
sampler keeps exactly the frames at position a multiple of
`interval = max(1, int(fps / target_rate))` — truncated, not rounded —
with timestamp `index / fps`; the interval is at least 1 and equals 1 when
`target_rate ≥ fps`. -/
theorem extract_frames_keeps_multiples_of_trunc_interval
    (v : Video) (r : ℚ) (he : v.path_exists = true) (ho : v.opens = true)
    (hf : 0 < v.fps) (hc : 0 < v.frame_count) (hr : 0 < r) :
    1 ≤ frame_interval v.fps r ∧
    (v.fps ≤ r → frame_interval v.fps r = 1) ∧
    (frame_interval v.fps r : ℤ) = max 1 ⌊v.fps / r⌋ ∧
    extract_frames v r =
      (List.range v.frames.length).filterMap fun j =>
        if frame_interval v.fps r ∣ j then
          some (v.frames.getD j ⟨0⟩, (j : ℚ) / v.fps)
        else none := by
  have hq : 0 ≤ v.fps / r := le_of_lt (div_pos hf hr)
  have hpy : pyInt (v.fps / r) = ⌊v.fps / r⌋ := if_pos hq
  have hcast : (frame_interval v.fps r : ℤ) = max 1 ⌊v.fps / r⌋ := by
    rw [frame_interval, hpy]
    exact Int.toNat_of_nonneg (le_trans one_pos.le (le_max_left _ _))
  refine ⟨frame_interval_pos v.fps r, ?_, hcast, ?_⟩
  · intro hle
    have hdiv : v.fps / r ≤ 1 := (div_le_one hr).mpr hle
    have hfl : ⌊v.fps / r⌋ ≤ 1 := by
      calc ⌊v.fps / r⌋ ≤ ⌊(1 : ℚ)⌋ := Int.floor_le_floor hdiv
        _ = 1 := Int.floor_one
    have : (frame_interval v.fps r : ℤ) = 1 := by
      rw [hcast]; exact max_eq_left hfl
    omega
  · rw [extract_frames, if_neg (by simp [he]), if_neg (by simp [ho]),
      if_neg (by push_neg; exact ⟨hf, hc⟩), sampleLoop_eq]
    refine List.filterMap_congr fun j _ => ?_
    rw [Nat.zero_add]
    by_cases h : frame_interval v.fps r ∣ j
    · rw [if_pos (Nat.dvd_iff_mod_eq_zero.mp h), if_pos h]
    · rw [if_neg (fun hm => h (Nat.dvd_iff_mod_eq_zero.mpr hm)), if_neg h]

/-- Witness for `extract_frames_keeps_multiples_of_trunc_interval` at the
concrete 3-fps, 3-frame video `vC1` with target rate 2. -/
theorem extract_frames_keeps_multiples_witness :
    1 ≤ frame_interval vC1.fps 2 ∧
    (frame_interval vC1.fps 2 : ℤ) = max 1 ⌊vC1.fps / 2⌋ ∧
    extract_frames vC1 2 =
      (List.range vC1.frames.length).filterMap fun j =>
        if frame_interval vC1.fps 2 ∣ j then
          some (vC1.frames.getD j ⟨0⟩, (j : ℚ) / vC1.fps)
        else none := by
  have h := extract_frames_keeps_multiples_of_trunc_interval vC1 2 rfl rfl
    (by norm_num [vC1]) (by norm_num [vC1]) (by norm_num)
  exact ⟨h.1, h.2.2.1, h.2.2.2⟩

/-- Counterexample to claim C1 as stated: at `fps = 3`, `target_rate = 2`
the spec's rounding rule gives `interval = max(1, round(1.5)) = 2` and
keeps 2 of the 3 frames, while the code truncates,
`interval = max(1, int(1.5)) = 1`, and keeps all 3 frames. -/
theorem extract_frames_round_rule_counterexample :
    extract_frames vC1 2 ≠ spec_extract_frames vC1 2 ∧
    (extract_frames vC1 2).length = 3 ∧
    (spec_extract_frames vC1 2).length = 2 := by
  refine ⟨?_, by rw [extract_frames_vC1]; rfl, by rw [spec_extract_frames_vC1]; rfl⟩
  rw [extract_frames_vC1, spec_extract_frames_vC1]
  intro h
  have := congrArg List.length h
  simp at this

/-- Counterexample to claim C2 as stated: a video that opens but reports
`fps = 0` makes `extract_frames` return a plain empty list — no
`InvalidMedia` (or any) error is raised, and the empty return is not
limited to videos that open and yield zero frames (`vC2` yields 5). -/
theorem extract_frames_zero_fps_counterexample :
    extract_frames vC2 1 = [] ∧ vC2.opens = true ∧ vC2.frames ≠ [] := by
  refine ⟨by norm_num [extract_frames, vC2], rfl, by simp [vC2]⟩

/-! ## Frame Classifier and Video Analyzer (`EmotionDetector`) -/

/-- The serialized model file: whether the path exists
(`os.path.exists(self.model_path)`), whether
`tf.keras.models.load_model` succeeds, and the network itself, abstracted
as the prediction row `predictions[0]` it assigns to a frame. -/
structure ModelFile where
  path_exists : Bool
  loads : Bool
  predict : Frame → List ℚ

/-- External collaborators of the detector: the model file behind
`self.model_path` and which frames survive decoding/preprocessing
(`process_frame`'s try-block up to `model.predict`). -/
structure Env where
  mf : ModelFile
  decodable : Frame → Bool

/-- Mutable detector state: `self.model` (None until a successful load)
plus a ghost counter of how many times the expensive
`tf.keras.models.load_model` call was executed. -/
structure DetectorState where
  model : Option ModelFile
  loadCount : ℕ

/-- `EmotionDetector.load_model` (emotion_detector.py lines 32-70):
if `self.model` is already set, return True without touching anything;
otherwise return False when the model file is missing, else run the
expensive load, cache the model on success and return whether it
succeeded. -/
def load_model (mf : ModelFile) (s : DetectorState) : Bool × DetectorState :=
  match s.model with
  | some _ => (true, s)
  | none =>
      if mf.path_exists = false then (false, s)
      else if mf.loads then (true, { model := some mf, loadCount := s.loadCount + 1 })
      else (false, { model := none, loadCount := s.loadCount + 1 })

/-- `EmotionDetector.process_frame` (emotion_detector.py lines 72-123):
calls `load_model` first and returns None if it fails; returns None when
the frame does not decode/preprocess; otherwise reads
`predictions[0][i]` for each configured emotion by index (an out-of-range
index raises and is caught, yielding None). -/
def process_frame (env : Env) (s : DetectorState) (f : Frame) :
    Option (List (String × ℚ)) × DetectorState :=
  match load_model env.mf s with
  | (false, s') => (none, s')
  | (true, s') =>
      if env.decodable f = false then (none, s')
      else
        match s'.model with
        | none => (none, s')
        | some m =>
            let out := m.predict f
            if supported_emotions.length ≤ out.length then
              (some (supported_emotions.zip out), s')
            else (none, s')

/-- One `FrameResult`: the per-frame record `{'timestamp': t, **emotion_data}`
built by `analyze_video` (emotion_detector.py lines 228-231). -/
structure FrameResult where
  timestamp : ℚ
  scores : List (String × ℚ)
deriving DecidableEq, Repr

/-- Ordering of frame results used by `results.sort(key=lambda x: x['timestamp'])`. -/
def resultLe (a b : FrameResult) : Prop := a.timestamp ≤ b.timestamp

instance : DecidableRel resultLe := fun _ _ => inferInstanceAs (Decidable (_ ≤ _))

instance : IsTotal FrameResult resultLe := ⟨fun a b => le_total a.timestamp b.timestamp⟩

instance : IsTrans FrameResult resultLe := ⟨fun _ _ _ h h' => le_trans h h'⟩

/-- Python's stable `list.sort` on timestamps, modelled as a stable sort. -/
def sortResults (l : List FrameResult) : List FrameResult :=
  List.insertionSort resultLe l

/-- The loop body of `analyze_video` (emotion_detector.py lines 225-235):
successful classifications are appended; failed frames are dropped. -/
def analyzeStep (env : Env) (acc : List FrameResult × DetectorState)
    (p : Frame × ℚ) : List FrameResult × DetectorState :=
  match process_frame env acc.2 p.1 with
  | (some scores, st') => (acc.1 ++ [{ timestamp := p.2, scores := scores }], st')
  | (none, st') => (acc.1, st')

/-- `EmotionDetector.analyze_video` (emotion_detector.py lines 198-251):
extracts frames, returns `[]` as soon as no frame was extracted, otherwise
classifies every frame in order, dropping the failures, and finally sorts
the results by timestamp. -/
def analyze_video (env : Env) (s : DetectorState) (v : Video) (frame_rate : ℚ) :
    List FrameResult × DetectorState :=
  let frames := extract_frames v frame_rate
  if frames = [] then ([], s)
  else
    let res := frames.foldl (analyzeStep env) ([], s)
    (sortResults res.1, res.2)

/-- Whether `load_model` can succeed from state `s`: either a model is
already cached or the model file exists and loads.  This value is invariant
across detector calls. -/
def canLoad (env : Env) (s : DetectorState) : Bool :=
  s.model.isSome || (env.mf.path_exists && env.mf.loads)

/-- The prediction function the detector will use from state `s` onward:
the cached model's if one is cached, otherwise the model file's. -/
def predictOf (env : Env) (s : DetectorState) : Frame → List ℚ :=
  match s.model with
  | some m => m.predict
  | none => env.mf.predict

/-- Whether classifying frame `f` from state `s` succeeds: the model is
loadable, the frame decodes, and the prediction row is long enough for
every configured label. -/
def classify_ok (env : Env) (s : DetectorState) (f : Frame) : Bool :=
  canLoad env s && env.decodable f &&
    decide (supported_emotions.length ≤ (predictOf env s f).length)

lemma process_frame_chars (env : Env) (s : DetectorState) (f : Frame) :
    (process_frame env s f).1 =
      (if classify_ok env s f = true then
        some (supported_emotions.zip (predictOf env s f)) else none) ∧
    canLoad env (process_frame env s f).2 = canLoad env s ∧
    predictOf env (process_frame env s f).2 = predictOf env s := by
  cases hm : s.model with
  | some m =>
      by_cases hd : env.decodable f
      · by_cases hl : supported_emotions.length ≤ (m.predict f).length
        · simp [process_frame, load_model, hm, classify_ok, canLoad, predictOf, hd, hl]
        · simp [process_frame, load_model, hm, classify_ok, canLoad, predictOf, hd, hl]
      · simp [process_frame, load_model, hm, classify_ok, canLoad, predictOf,
          Bool.eq_false_iff.mpr hd]
  | none =>
      by_cases hpe : env.mf.path_exists
      · by_cases hlo : env.mf.loads
        · by_cases hd : env.decodable f
          · by_cases hl : supported_emotions.length ≤ (env.mf.predict f).length
            · simp [process_frame, load_model, hm, classify_ok, canLoad, predictOf,
                hpe, hlo, hd, hl]
            · simp [process_frame, load_model, hm, classify_ok, canLoad, predictOf,
                hpe, hlo, hd, hl]
          · simp [process_frame, load_model, hm, classify_ok, canLoad, predictOf,
              hpe, hlo, Bool.eq_false_iff.mpr hd]
        · simp [process_frame, load_model, hm, classify_ok, canLoad, predictOf,
            hpe, Bool.eq_false_iff.mpr hlo]
      · simp [process_frame, load_model, hm, classify_ok, canLoad, predictOf,
          Bool.eq_false_iff.mpr hpe]

/-- With a cached model, `process_frame` leaves the detector state
untouched (the cached branch of `load_model`). -/
lemma process_frame_state_cached (env : Env) (s : DetectorState) (f : Frame)
    (m : ModelFile) (hm : s.model = some m) : (process_frame env s f).2 = s := by
  by_cases hd : env.decodable f
  · by_cases hl : supported_emotions.length ≤ (m.predict f).length
    · simp [process_frame, load_model, hm, hd, hl]
    · simp [process_frame, load_model, hm, hd, hl]
  · simp [process_frame, load_model, hm, Bool.eq_false_iff.mpr hd]

/-- From a fresh state, a `process_frame` call performs the expensive load
exactly when the model file path exists. -/
lemma process_frame_loadCount_fresh (env : Env) (s : DetectorState) (f : Frame)
    (hm : s.model = none) :
    (process_frame env s f).2.loadCount =
      s.loadCount + (if env.mf.path_exists = true then 1 else 0) := by
  by_cases hpe : env.mf.path_exists
  · by_cases hlo : env.mf.loads
    · by_cases hd : env.decodable f
      · by_cases hl : supported_emotions.length ≤ (env.mf.predict f).length
        · simp [process_frame, load_model, hm, hpe, hlo, hd, hl]
        · simp [process_frame, load_model, hm, hpe, hlo, hd, hl]
      · simp [process_frame, load_model, hm, hpe, hlo, Bool.eq_false_iff.mpr hd]
    · simp [process_frame, load_model, hm, hpe, Bool.eq_false_iff.mpr hlo]
  · simp [process_frame, load_model, hm, Bool.eq_false_iff.mpr hpe]

/-- After a `process_frame` call from a fresh state with a loadable model
file, the model is cached and exactly one load was performed. -/
lemma process_frame_caches (env : Env) (s : DetectorState) (f : Frame)
    (hm : s.model = none) (hpe : env.mf.path_exists = true)
    (hlo : env.mf.loads = true) :
    (process_frame env s f).2.model = some env.mf ∧
    (process_frame env s f).2.loadCount = s.loadCount + 1 := by
  by_cases hd : env.decodable f
  · by_cases hl : supported_emotions.length ≤ (env.mf.predict f).length
    · simp [process_frame, load_model, hm, hpe, hlo, hd, hl]
    · simp [process_frame, load_model, hm, hpe, hlo, hd, hl]
  · simp [process_frame, load_model, hm, hpe, hlo, Bool.eq_false_iff.mpr hd]

/-- When the model file is missing, `process_frame` does not change the
state at all. -/
lemma process_frame_no_file (env : Env) (s : DetectorState) (f : Frame)
    (hm : s.model = none) (hpe : env.mf.path_exists = false) :
    (process_frame env s f).2 = s := by
  simp [process_frame, load_model, hm, hpe]

/-- The frames that classify successfully from state `s`, with the scores
the detector attaches to them; `analyze_video` keeps exactly these. -/
def classifiedResults (env : Env) (s : DetectorState)
    (frames : List (Frame × ℚ)) : List FrameResult :=
  frames.filterMap fun p =>
    if classify_ok env s p.1 = true then
      some { timestamp := p.2, scores := supported_emotions.zip (predictOf env s p.1) }
    else none

lemma classifiedResults_congr (env : Env) (s s' : DetectorState)
    (frames : List (Frame × ℚ)) (hc : canLoad env s' = canLoad env s)
    (hp : predictOf env s' = predictOf env s) :
    classifiedResults env s' frames = classifiedResults env s frames := by
  unfold classifiedResults
  refine List.filterMap_congr fun p _ => ?_
  rw [classify_ok, classify_ok, hc, hp]

lemma foldl_analyzeStep_fst (env : Env) (frames : List (Frame × ℚ))
    (acc : List FrameResult) (s : DetectorState) :
    (frames.foldl (analyzeStep env) (acc, s)).1 =
      acc ++ classifiedResults env s frames := by
  induction frames generalizing acc s with
  | nil => simp [classifiedResults]
  | cons p frames ih =>
      obtain ⟨h1, h2, h3⟩ := process_frame_chars env s p.1
      rw [List.foldl_cons]
      rcases hpf : process_frame env s p.1 with ⟨o, st⟩
      rw [hpf] at h1 h2 h3
      simp only at h1 h2 h3
      by_cases hok : classify_ok env s p.1 = true
      · rw [if_pos hok] at h1
        have hstep : analyzeStep env (acc, s) p =
            (acc ++ [({ timestamp := p.2,
                        scores := supported_emotions.zip (predictOf env s p.1) } :
              FrameResult)], st) := by
          simp only [analyzeStep, hpf, h1]
        rw [hstep, ih, classifiedResults_congr env s st frames h2 h3]
        simp [classifiedResults, List.filterMap_cons, hok]
      · rw [if_neg hok] at h1
        have hstep : analyzeStep env (acc, s) p = (acc, st) := by
          simp only [analyzeStep, hpf, h1]
        rw [hstep, ih, classifiedResults_congr env s st frames h2 h3]
        simp [classifiedResults, List.filterMap_cons, hok]

/-- The detector state after a sequence of per-frame calls; the analyzer's
final state only depends on the frames, not the accumulated results. -/
def detectorAfter (env : Env) : DetectorState → List (Frame × ℚ) → DetectorState
  | s, [] => s
  | s, p :: frames => detectorAfter env (process_frame env s p.1).2 frames

lemma foldl_analyzeStep_snd (env : Env) (frames : List (Frame × ℚ))
    (acc : List FrameResult) (s : DetectorState) :
    (frames.foldl (analyzeStep env) (acc, s)).2 = detectorAfter env s frames := by
  induction frames generalizing acc s with
  | nil => rfl
  | cons p frames ih =>
      rw [List.foldl_cons, detectorAfter]
      rcases hpf : process_frame env s p.1 with ⟨o, st⟩
      cases o with
      | some sc =>
          have hstep : analyzeStep env (acc, s) p =
              (acc ++ [({ timestamp := p.2, scores := sc } : FrameResult)], st) := by
            simp only [analyzeStep, hpf]
          rw [hstep, ih]
      | none =>
          have hstep : analyzeStep env (acc, s) p = (acc, st) := by
            simp only [analyzeStep, hpf]
          rw [hstep, ih]

/-- With a cached model, an entire run of per-frame calls leaves the
detector state unchanged. -/
lemma detectorAfter_cached (env : Env) (frames : List (Frame × ℚ))
    (s : DetectorState) (m : ModelFile) (hm : s.model = some m) :
    detectorAfter env s frames = s := by
  induction frames with
  | nil => rfl
  | cons p frames ih =>
      rw [detectorAfter, process_frame_state_cached env s p.1 m hm, ih]

/-- When the model file loads, a run of per-frame calls performs at most
one expensive load: none once a model is cached, at most one otherwise. -/
lemma detectorAfter_loadCount_le (env : Env) (frames : List (Frame × ℚ))
    (s : DetectorState) (hlo : env.mf.loads = true) :
    (detectorAfter env s frames).loadCount ≤
      s.loadCount + (if s.model.isSome then 0 else 1) := by
  induction frames generalizing s with
  | nil =>
      simp only [detectorAfter]
      split <;> omega
  | cons p frames ih =>
      rw [detectorAfter]
      cases hm : s.model with
      | some m =>
          rw [process_frame_state_cached env s p.1 m hm]
          have h2 := ih s
          rw [hm] at h2
          simpa using h2
      | none =>
          by_cases hpe : env.mf.path_exists
          · obtain ⟨hmod, hcnt⟩ := process_frame_caches env s p.1 hm hpe hlo
            have h2 := ih (process_frame env s p.1).2
            rw [hmod, hcnt] at h2
            simp at h2 ⊢
            omega
          · rw [process_frame_no_file env s p.1 hm (Bool.eq_false_iff.mpr hpe)]
            have h2 := ih s
            rw [hm] at h2
            simpa using h2

/-- Claim C6: the Video Analyzer returns exactly the successfully
classified frames (failures dropped, never aborting), sorted by timestamp
ascending, and returns an empty sequence — not an error — when sampling
yields zero frames or when every classification fails. -/
theorem analyze_video_sorted_successes (env : Env) (s : DetectorState)
    (v : Video) (r : ℚ) :
    (analyze_video env s v r).1 =
      sortResults (classifiedResults env s (extract_frames v r)) ∧
    List.Sorted resultLe (analyze_video env s v r).1 ∧
    (extract_frames v r = [] → analyze_video env s v r = ([], s)) ∧
    ((∀ p ∈ extract_frames v r, classify_ok env s p.1 = false) →
      (analyze_video env s v r).1 = []) := by
  have h1 : (analyze_video env s v r).1 =
      sortResults (classifiedResults env s (extract_frames v r)) := by
    rw [analyze_video]
    by_cases he : extract_frames v r = []
    · rw [if_pos he, he]
      simp [classifiedResults, sortResults]
    · rw [if_neg he]
      simp only [foldl_analyzeStep_fst, List.nil_append]
  refine ⟨h1, ?_, ?_, ?_⟩
  · rw [h1]
    exact List.sorted_insertionSort resultLe _
  · intro he
    rw [analyze_video, if_pos he]
  · intro hall
    rw [h1]
    have : classifiedResults env s (extract_frames v r) = [] := by
      rw [classifiedResults, List.filterMap_eq_nil_iff]
      intro p hp
      rw [if_neg (by simp [hall p hp])]
    rw [this]
    rfl

/-- Claim C2 (amended): the sampler signals every failure mode by
returning an empty list (never by raising): missing file, unopenable
capture, and non-positive fps or frame count all yield `[]`; in
particular for a video with `fps = 0` the analyzer receives no frames and
returns an empty result with the detector state untouched (no
classification is attempted). -/
theorem extract_frames_failures_return_empty (v : Video) (r : ℚ)
    (env : Env) (s : DetectorState) :
    (v.path_exists = false → extract_frames v r = []) ∧
    (v.opens = false → extract_frames v r = []) ∧
    (v.fps ≤ 0 ∨ v.frame_count ≤ 0 → extract_frames v r = []) ∧
    (v.fps = 0 → analyze_video env s v r = ([], s)) := by
  refine ⟨?_, ?_, ?_, ?_⟩
  · intro h; rw [extract_frames, if_pos h]
  · intro h
    rw [extract_frames]
    by_cases hpe : v.path_exists = false
    · rw [if_pos hpe]
    · rw [if_neg hpe, if_pos h]
  · intro h
    rw [extract_frames]
    by_cases hpe : v.path_exists = false
    · rw [if_pos hpe]
    · rw [if_neg hpe]
      by_cases ho : v.opens = false
      · rw [if_pos ho]
      · rw [if_neg ho, if_pos h]
  · intro h
    have he : extract_frames v r = [] := by
      rw [extract_frames]
      by_cases hpe : v.path_exists = false
      · rw [if_pos hpe]
      · rw [if_neg hpe]
        by_cases ho : v.opens = false
        · rw [if_pos ho]
        · rw [if_neg ho, if_pos (Or.inl (le_of_eq h))]
    rw [analyze_video, if_pos he]

/-- A loadable model file whose network always answers
`[1, 0, 0]` (pure `angry`). -/
def mfW : ModelFile :=
  { path_exists := true, loads := true, predict := fun _ => [1, 0, 0] }

/-- A working environment: model file `mfW`, every frame decodable. -/
def envW : Env := { mf := mfW, decodable := fun _ => true }

/-- A freshly constructed detector (`self.model = None`). -/
def freshDetector : DetectorState := { model := none, loadCount := 0 }

/-- A 1-frame, 1-fps video. -/
def vW : Video :=
  { path_exists := true, opens := true, fps := 1, frame_count := 1,
    frames := [⟨0⟩] }

/-- Witness for `extract_frames_failures_return_empty` at the concrete
fps-0 video `vC2`. -/
theorem extract_frames_failures_return_empty_witness :
    extract_frames vC2 1 = [] ∧
    analyze_video envW freshDetector vC2 1 = ([], freshDetector) := by
  have h := extract_frames_failures_return_empty vC2 1 envW freshDetector
  exact ⟨h.2.2.1 (Or.inl (by norm_num [vC2])), h.2.2.2 (by norm_num [vC2])⟩

lemma extract_frames_vW : extract_frames vW 1 = [(⟨0⟩, 0)] := by
  norm_num [extract_frames, vW, frame_interval, pyInt, sampleLoop]

lemma process_frame_fresh_eval :
    process_frame envW freshDetector ⟨0⟩ =
      (some [("angry", 1), ("sad", 0), ("happy", 0)],
       { model := some mfW, loadCount := 1 }) := rfl

lemma analyze_video_vW_eval :
    analyze_video envW freshDetector vW 1 =
      ([{ timestamp := 0, scores := [("angry", 1), ("sad", 0), ("happy", 0)] }],
       { model := some mfW, loadCount := 1 }) := by
  simp only [analyze_video, extract_frames_vW]
  rw [if_neg (by simp)]
  rfl

/-- Claim C8 (amended): per detector instance, `load_model` is idempotent
and cached after the first success — with a cached model it returns True
and changes nothing, after any successful call a second call succeeds
without reloading, a whole `analyze_video` run from a loaded state leaves
the state untouched, and when the model file loads the expensive load runs
at most once per instance per run; the load is triggered lazily by the
first `process_frame` call (it is this per-frame call that performs the
one fresh load when the model file exists). -/
theorem load_model_idempotent_cached (env : Env) (v : Video) (r : ℚ) (f : Frame) :
    (∀ s m, s.model = some m → load_model env.mf s = (true, s)) ∧
    (∀ s, (load_model env.mf s).1 = true →
      load_model env.mf (load_model env.mf s).2 = (true, (load_model env.mf s).2)) ∧
    (∀ s m, s.model = some m → (analyze_video env s v r).2 = s) ∧
    (env.mf.loads = true → ∀ s,
      (analyze_video env s v r).2.loadCount ≤ s.loadCount + 1) ∧
    (∀ s, s.model = none → (process_frame env s f).2.loadCount =
      s.loadCount + (if env.mf.path_exists = true then 1 else 0)) := by
  refine ⟨?_, ?_, ?_, ?_, ?_⟩
  · intro s m hm
    simp [load_model, hm]
  · intro s h
    cases hm : s.model with
    | some m => simp [load_model, hm]
    | none =>
        by_cases hpe : env.mf.path_exists
        · by_cases hlo : env.mf.loads
          · simp [load_model, hm, hpe, hlo]
          · rw [load_model] at h
            simp [hm, hpe, Bool.eq_false_iff.mpr hlo] at h
        · rw [load_model] at h
          simp [hm, Bool.eq_false_iff.mpr hpe] at h
  · intro s m hm
    simp only [analyze_video]
    by_cases he : extract_frames v r = []
    · rw [if_pos he]
    · rw [if_neg he]
      simp only [foldl_analyzeStep_snd]
      exact detectorAfter_cached env _ s m hm
  · intro hlo s
    simp only [analyze_video]
    by_cases he : extract_frames v r = []
    · rw [if_pos he]
      exact Nat.le_succ _
    · rw [if_neg he]
      simp only [foldl_analyzeStep_snd]
      have h := detectorAfter_loadCount_le env (extract_frames v r) s hlo
      cases hsm : s.model with
      | none => rw [hsm] at h; simp at h; omega
      | some m => rw [hsm] at h; simp at h; omega
  · intro s hm
    exact process_frame_loadCount_fresh env s f hm

/-- Witness for `load_model_idempotent_cached` at the concrete always-angry
environment `envW`, including a second call after a successful one. -/
theorem load_model_idempotent_cached_witness :
    load_model envW.mf { model := some mfW, loadCount := 5 } =
      (true, { model := some mfW, loadCount := 5 }) ∧
    (analyze_video envW { model := some mfW, loadCount := 5 } vW 1).2 =
      { model := some mfW, loadCount := 5 } ∧
    (analyze_video envW freshDetector vW 1).2.loadCount ≤
      freshDetector.loadCount + 1 ∧
    (process_frame envW freshDetector ⟨0⟩).2.loadCount =
      freshDetector.loadCount + (if envW.mf.path_exists = true then 1 else 0) := by
  have h := load_model_idempotent_cached envW vW 1 ⟨0⟩
  exact ⟨h.1 _ mfW rfl, h.2.2.1 _ mfW rfl, h.2.2.2.1 rfl _, h.2.2.2.2 _ rfl⟩

/-- Counterexample to claim C8 as stated: the fresh expensive load IS
triggered inside the per-frame classification loop — `analyze_video` never
calls `load_model` before the loop, and on a fresh detector the first
`process_frame` call performs the load (the ghost load counter goes from 0
to 1 during per-frame processing). -/
theorem model_load_in_frame_loop_counterexample :
    freshDetector.loadCount = 0 ∧
    (process_frame envW freshDetector ⟨0⟩).2.loadCount = 1 ∧
    (analyze_video envW freshDetector vW 1).2.loadCount = 1 := by
  refine ⟨rfl, by rw [process_frame_fresh_eval], by rw [analyze_video_vW_eval]⟩

/-- Claim C9: a successful classification returns scores keyed by exactly
the configured label list (no missing or extra keys), each value taken
from the model's output row by index in the fixed label order. -/
theorem process_frame_scores_exact_labels (env : Env) (s : DetectorState)
    (f : Frame) (scores : List (String × ℚ)) (s' : DetectorState)
    (h : process_frame env s f = (some scores, s')) :
    scores = supported_emotions.zip (predictOf env s f) ∧
    scores.map Prod.fst = supported_emotions ∧
    scores.length = supported_emotions.length ∧
    (∀ i, i < supported_emotions.length →
      scores.getD i ("", 0) =
        (supported_emotions.getD i "", (predictOf env s f).getD i 0)) := by
  obtain ⟨h1, _, _⟩ := process_frame_chars env s f
  rw [h] at h1
  by_cases hok : classify_ok env s f = true
  · rw [if_pos hok] at h1
    have hz : scores = supported_emotions.zip (predictOf env s f) :=
      Option.some_injective _ h1
    have hlen : supported_emotions.length ≤ (predictOf env s f).length := by
      have := hok
      rw [classify_ok] at this
      simp only [Bool.and_eq_true, decide_eq_true_eq] at this
      exact this.2
    have hzlen : (supported_emotions.zip (predictOf env s f)).length =
        supported_emotions.length := by
      rw [List.length_zip]
      omega
    refine ⟨hz, ?_, ?_, ?_⟩
    · rw [hz]
      exact List.map_fst_zip _ _ hlen
    · rw [hz, hzlen]
    · intro i hi
      rw [hz]
      have hiz : i < (supported_emotions.zip (predictOf env s f)).length := by
        omega
      have hip : i < (predictOf env s f).length := by omega
      rw [List.getD_eq_getElem?_getD, List.getElem?_eq_getElem hiz,
        List.getElem_zip, Option.getD_some]
      rw [List.getD_eq_getElem?_getD, List.getElem?_eq_getElem hi,
        List.getD_eq_getElem?_getD, List.getElem?_eq_getElem hip]
      rfl
  · rw [if_neg hok] at h1
    exact absurd h1 (by simp)

/-- Witness for `process_frame_scores_exact_labels`: the concrete
always-angry model yields exactly the three configured keys. -/
theorem process_frame_scores_exact_labels_witness :
    [("angry", (1 : ℚ)), ("sad", 0), ("happy", 0)].map Prod.fst =
      supported_emotions ∧
    [("angry", (1 : ℚ)), ("sad", 0), ("happy", 0)].length =
      supported_emotions.length :=
  ⟨(process_frame_scores_exact_labels envW freshDetector ⟨0⟩ _ _
      process_frame_fresh_eval).2.1,
   (process_frame_scores_exact_labels envW freshDetector ⟨0⟩ _ _
      process_frame_fresh_eval).2.2.1⟩

/-! ## Timeline Segmenter (`create_emotion_timeline`, tasks.py) -/

/-- One `EmotionAnalysis` row as the segmenter reads it: timestamp plus
the three supported per-emotion scores. -/
structure FrameAnalysis where
  timestamp : ℚ
  angry : ℚ
  sad : ℚ
  happy : ℚ
deriving DecidableEq, Repr

/-- One `EmotionTimeline` row (models.py lines 125-134). -/
structure EmotionSegment where
  start_time : ℚ
  end_time : ℚ
  duration : ℚ
  dominant_emotion : String
  confidence : ℚ
deriving DecidableEq, Repr

/-- Python's `max(d, key=d.get)` over key/score pairs in dict insertion
order: scan left to right, replacing the best only on strictly greater
score, so the first key attaining the maximum wins. -/
def pyMaxFold (x : String × ℚ) (xs : List (String × ℚ)) : String × ℚ :=
  xs.foldl (fun best y => if best.2 < y.2 then y else best) x

/-- The per-frame dominant emotion and its confidence in the segmenter
(tasks.py lines 190-196): `max` over the dict
`{'angry': .., 'sad': .., 'happy': ..}`, confidence the winning score. -/
def dominantOf (a : FrameAnalysis) : String × ℚ :=
  pyMaxFold ("angry", a.angry) [("sad", a.sad), ("happy", a.happy)]

/-- `sum(score for _, score in segment_frames) / len(segment_frames)
if segment_frames else 0.0` (tasks.py lines 211 and 233). -/
def meanConf (fs : List (String × ℚ)) : ℚ :=
  if fs = [] then 0 else (fs.map Prod.snd).sum / fs.length

/-- Construction of one `EmotionTimeline` segment
(tasks.py lines 205-212 and 227-234). -/
def closeSeg (start_t end_t : ℚ) (emo : String) (fs : List (String × ℚ)) :
    EmotionSegment :=
  { start_time := start_t, end_time := end_t, duration := end_t - start_t,
    dominant_emotion := emo, confidence := meanConf fs }

/-- The loop state of `create_emotion_timeline`: `current_emotion`,
`segment_start`, `segment_frames`, `emotion_segments`. -/
structure SegState where
  current_emotion : Option String
  segment_start : ℚ
  segment_frames : List (String × ℚ)
  emotion_segments : List EmotionSegment

/-- One iteration of the segmenter loop (tasks.py lines 188-221). -/
def segStep (st : SegState) (a : FrameAnalysis) : SegState :=
  match st.current_emotion with
  | none =>
      { current_emotion := some (dominantOf a).1, segment_start := a.timestamp,
        segment_frames := [dominantOf a],
        emotion_segments := st.emotion_segments }
  | some ce =>
      if ce ≠ (dominantOf a).1 then
        { current_emotion := some (dominantOf a).1,
          segment_start := a.timestamp,
          segment_frames := [dominantOf a],
          emotion_segments := st.emotion_segments ++
            [closeSeg st.segment_start a.timestamp ce st.segment_frames] }
      else
        { st with segment_frames := st.segment_frames ++ [dominantOf a] }

/-- Ordering of analyses used by `sorted(analyses, key=lambda x: x.timestamp)`. -/
def analysisLe (a b : FrameAnalysis) : Prop := a.timestamp ≤ b.timestamp

instance : DecidableRel analysisLe := fun _ _ => inferInstanceAs (Decidable (_ ≤ _))

instance : IsTotal FrameAnalysis analysisLe := ⟨fun a b => le_total a.timestamp b.timestamp⟩

instance : IsTrans FrameAnalysis analysisLe := ⟨fun _ _ _ h h' => le_trans h h'⟩

/-- Python's stable `sorted` on timestamps. -/
def sortAnalyses (l : List FrameAnalysis) : List FrameAnalysis :=
  List.insertionSort analysisLe l

/-- The segmenter body applied to an already sorted list: run the loop and
close the final open run at the last frame's timestamp
(tasks.py lines 182-235). -/
def timelineSorted (l : List FrameAnalysis) : List EmotionSegment :=
  match l.getLast? with
  | none => []
  | some last =>
      let st := l.foldl segStep
        { current_emotion := none, segment_start := 0, segment_frames := [],
          emotion_segments := [] }
      match st.current_emotion with
      | some ce =>
          st.emotion_segments ++
            [closeSeg st.segment_start last.timestamp ce st.segment_frames]
      | none => st.emotion_segments

/-- `create_emotion_timeline` (tasks.py lines 169-239): empty input is a
no-op, otherwise sort by timestamp and run the segmentation loop. -/
def create_emotion_timeline (analyses : List FrameAnalysis) :
    List EmotionSegment :=
  if analyses = [] then [] else timelineSorted (sortAnalyses analyses)

/-- Run-length-encoding form of the segmenter, by recursion on maximal
constant-dominant runs: each run closes at the next run's first timestamp
(the changing frame), the last run at its own last timestamp, confidence
the mean of the run's winning scores. -/
def rleSpec : List FrameAnalysis → List EmotionSegment
  | [] => []
  | a :: rest =>
    if h : rest.dropWhile (fun b => (dominantOf b).1 == (dominantOf a).1) = [] then
      [closeSeg a.timestamp
        ((a :: rest.takeWhile
            (fun b => (dominantOf b).1 == (dominantOf a).1)).getLast
          (List.cons_ne_nil _ _)).timestamp
        (dominantOf a).1
        ((a :: rest.takeWhile
            (fun b => (dominantOf b).1 == (dominantOf a).1)).map dominantOf)]
    else
      closeSeg a.timestamp
        (((rest.dropWhile
            (fun b => (dominantOf b).1 == (dominantOf a).1)).head h).timestamp)
        (dominantOf a).1
        ((a :: rest.takeWhile
            (fun b => (dominantOf b).1 == (dominantOf a).1)).map dominantOf) ::
      rleSpec (rest.dropWhile (fun b => (dominantOf b).1 == (dominantOf a).1))
termination_by l => l.length
decreasing_by
  have hlen := (List.dropWhile_sublist
    (fun b => (dominantOf b).1 == (dominantOf a).1) (l := rest)).length_le
  simp only [List.length_cons]
  omega

lemma segStep_none (c : Option String) (s : ℚ) (fs : List (String × ℚ))
    (segs : List EmotionSegment) (a : FrameAnalysis) (h : c = none) :
    segStep ⟨c, s, fs, segs⟩ a =
      ⟨some (dominantOf a).1, a.timestamp, [dominantOf a], segs⟩ := by
  subst h
  rfl

lemma segStep_same (c : Option String) (s : ℚ) (fs : List (String × ℚ))
    (segs : List EmotionSegment) (a : FrameAnalysis) (e : String)
    (h : c = some e) (hde : (dominantOf a).1 = e) :
    segStep ⟨c, s, fs, segs⟩ a = ⟨some e, s, fs ++ [dominantOf a], segs⟩ := by
  subst h
  simp [segStep, hde]

lemma segStep_change (c : Option String) (s : ℚ) (fs : List (String × ℚ))
    (segs : List EmotionSegment) (a : FrameAnalysis) (e : String)
    (h : c = some e) (hde : (dominantOf a).1 ≠ e) :
    segStep ⟨c, s, fs, segs⟩ a =
      ⟨some (dominantOf a).1, a.timestamp, [dominantOf a],
       segs ++ [closeSeg s a.timestamp e fs]⟩ := by
  subst h
  have hne : e ≠ (dominantOf a).1 := fun hh => hde hh.symm
  simp [segStep, hne]

lemma segStep_segments_pull (c : Option String) (s : ℚ)
    (fs : List (String × ℚ)) (segs : List EmotionSegment) (a : FrameAnalysis) :
    segStep ⟨c, s, fs, segs⟩ a =
      ⟨(segStep ⟨c, s, fs, []⟩ a).current_emotion,
       (segStep ⟨c, s, fs, []⟩ a).segment_start,
       (segStep ⟨c, s, fs, []⟩ a).segment_frames,
       segs ++ (segStep ⟨c, s, fs, []⟩ a).emotion_segments⟩ := by
  cases c with
  | none => simp [segStep]
  | some e =>
      by_cases hde : e = (dominantOf a).1
      · simp [segStep, hde]
      · simp [segStep, hde]

lemma foldl_segStep_segments_pull (l : List FrameAnalysis) (c : Option String)
    (s : ℚ) (fs : List (String × ℚ)) (segs : List EmotionSegment) :
    l.foldl segStep ⟨c, s, fs, segs⟩ =
      ⟨(l.foldl segStep ⟨c, s, fs, []⟩).current_emotion,
       (l.foldl segStep ⟨c, s, fs, []⟩).segment_start,
       (l.foldl segStep ⟨c, s, fs, []⟩).segment_frames,
       segs ++ (l.foldl segStep ⟨c, s, fs, []⟩).emotion_segments⟩ := by
  induction l generalizing c s fs segs with
  | nil => simp
  | cons a l ih =>
      rw [List.foldl_cons, List.foldl_cons, segStep_segments_pull]
      rcases hst : segStep ⟨c, s, fs, ([] : List EmotionSegment)⟩ a with ⟨c', s', fs', δ⟩
      simp only
      rw [ih c' s' fs' (segs ++ δ), ih c' s' fs' δ]
      simp [List.append_assoc]

lemma foldl_segStep_run : ∀ (l : List FrameAnalysis) (e : String) (s : ℚ)
    (fs : List (String × ℚ)) (segs : List EmotionSegment),
    (∀ b ∈ l, (dominantOf b).1 = e) →
    l.foldl segStep ⟨some e, s, fs, segs⟩ =
      ⟨some e, s, fs ++ l.map dominantOf, segs⟩ := by
  intro l e
  induction l with
  | nil => intro s fs segs _; simp
  | cons a l ih =>
      intro s fs segs hall
      rw [List.foldl_cons,
        segStep_same _ s fs segs a e rfl (hall a (List.mem_cons_self a l)),
        ih s (fs ++ [dominantOf a]) segs
          (fun b hb => hall b (List.mem_cons_of_mem a hb))]
      simp

lemma foldl_segStep_isSome (l : List FrameAnalysis) (st : SegState)
    (h : st.current_emotion.isSome) :
    (l.foldl segStep st).current_emotion.isSome := by
  induction l generalizing st with
  | nil => exact h
  | cons a l ih =>
      rw [List.foldl_cons]
      apply ih
      rcases st with ⟨c, s, fs, segs⟩
      cases c with
      | none => simp at h
      | some e =>
          by_cases hde : (dominantOf a).1 = e
          · rw [segStep_same (some e) s fs segs a e rfl hde]
            rfl
          · rw [segStep_change (some e) s fs segs a e rfl hde]
            rfl

/-- The segmenter loop, run on a list, computes exactly the run-length
encoding `rleSpec`: each segment is a maximal constant-dominant run,
closed at the changing frame's timestamp (the last at its own last
timestamp), confidence the mean of the run's winning scores. -/
lemma timelineSorted_eq_rleSpec (l : List FrameAnalysis) :
    timelineSorted l = rleSpec l := by
  suffices H : ∀ n (l : List FrameAnalysis), l.length ≤ n →
      timelineSorted l = rleSpec l from H l.length l le_rfl
  intro n
  induction n with
  | zero =>
      intro l hl
      have : l = [] := List.eq_nil_of_length_eq_zero (Nat.le_zero.mp hl)
      subst this
      rw [rleSpec]
      rfl
  | succ n ih =>
      intro l hl
      cases l with
      | nil => rw [rleSpec]; rfl
      | cons a rest =>
          by_cases hdrop :
            rest.dropWhile (fun b => (dominantOf b).1 == (dominantOf a).1) = []
          · have hall : ∀ b ∈ rest, (dominantOf b).1 = (dominantOf a).1 := by
              intro b hb
              exact beq_iff_eq.mp (List.dropWhile_eq_nil_iff.mp hdrop b hb)
            have htw : rest.takeWhile
                (fun b => (dominantOf b).1 == (dominantOf a).1) = rest := by
              have h2 := List.takeWhile_append_dropWhile
                (p := fun b => (dominantOf b).1 == (dominantOf a).1) (l := rest)
              rw [hdrop, List.append_nil] at h2
              exact h2
            have hlast : (a :: rest).getLast? =
                some ((a :: rest).getLast (List.cons_ne_nil a rest)) :=
              List.getLast?_eq_getLast _ _
            have hfold : (a :: rest).foldl segStep ⟨none, 0, [], []⟩ =
                ⟨some (dominantOf a).1, a.timestamp,
                 [dominantOf a] ++ rest.map dominantOf, []⟩ := by
              rw [List.foldl_cons, segStep_none none 0 [] [] a rfl,
                foldl_segStep_run rest (dominantOf a).1 a.timestamp
                  [dominantOf a] [] hall]
            rw [timelineSorted, hlast, hfold, rleSpec, dif_pos hdrop]
            simp only [htw]
            simp
          · obtain ⟨b, rest₂, hbr⟩ : ∃ b rest₂,
                rest.dropWhile (fun x => (dominantOf x).1 == (dominantOf a).1) =
                  b :: rest₂ := by
              cases hh : rest.dropWhile
                  (fun x => (dominantOf x).1 == (dominantOf a).1) with
              | nil => exact absurd hh hdrop
              | cons b t => exact ⟨b, t, rfl⟩
            have hallTw : ∀ x ∈ rest.takeWhile
                (fun x => (dominantOf x).1 == (dominantOf a).1),
                (dominantOf x).1 = (dominantOf a).1 := by
              intro y hy
              have hpy := List.mem_takeWhile_imp hy
              simp only at hpy
              exact beq_iff_eq.mp hpy
            have hbne : (dominantOf b).1 ≠ (dominantOf a).1 := by
              have hhead := List.head_dropWhile_not
                (fun x => (dominantOf x).1 == (dominantOf a).1) rest
                (by rw [hbr]; exact List.cons_ne_nil _ _)
              simp only [hbr, List.head_cons] at hhead
              simpa using hhead
            have hsplit : a :: rest =
                (a :: rest.takeWhile
                  (fun x => (dominantOf x).1 == (dominantOf a).1)) ++
                (b :: rest₂) := by
              rw [← hbr]
              rw [List.cons_append, List.takeWhile_append_dropWhile]
            have hlen₂ : (b :: rest₂).length ≤ n := by
              have hsub := (List.dropWhile_sublist
                (fun x => (dominantOf x).1 == (dominantOf a).1)
                (l := rest)).length_le
              rw [hbr] at hsub
              simp only [List.length_cons] at hl hsub ⊢
              omega
            have hne₂ : (b :: rest₂ : List FrameAnalysis) ≠ [] :=
              List.cons_ne_nil _ _
            have hlastbr : (b :: rest₂).getLast? =
                some ((b :: rest₂).getLast hne₂) := List.getLast?_eq_getLast _ _
            have hlast : (a :: rest).getLast? =
                some ((b :: rest₂).getLast hne₂) := by
              rw [hsplit, List.getLast?_append, hlastbr]
              rfl
            have hrun : (a :: rest.takeWhile
                  (fun x => (dominantOf x).1 == (dominantOf a).1)).foldl
                segStep ⟨none, 0, [], []⟩ =
                ⟨some (dominantOf a).1, a.timestamp,
                 (a :: rest.takeWhile
                   (fun x => (dominantOf x).1 == (dominantOf a).1)).map
                   dominantOf, []⟩ := by
              rw [List.foldl_cons, segStep_none none 0 [] [] a rfl,
                foldl_segStep_run _ _ _ _ _ hallTw]
              rw [List.map_cons]
              rfl
            have hfoldT : (b :: rest₂).foldl segStep ⟨none, 0, [], []⟩ =
                rest₂.foldl segStep
                  ⟨some (dominantOf b).1, b.timestamp, [dominantOf b], []⟩ := by
              rw [List.foldl_cons, segStep_none none 0 [] [] b rfl]
            have hfold : (a :: rest).foldl segStep ⟨none, 0, [], []⟩ =
                ⟨(rest₂.foldl segStep
                    ⟨some (dominantOf b).1, b.timestamp, [dominantOf b],
                     []⟩).current_emotion,
                 (rest₂.foldl segStep
                    ⟨some (dominantOf b).1, b.timestamp, [dominantOf b],
                     []⟩).segment_start,
                 (rest₂.foldl segStep
                    ⟨some (dominantOf b).1, b.timestamp, [dominantOf b],
                     []⟩).segment_frames,
                 [closeSeg a.timestamp b.timestamp (dominantOf a).1
                    ((a :: rest.takeWhile
                      (fun x => (dominantOf x).1 == (dominantOf a).1)).map
                      dominantOf)] ++
                 (rest₂.foldl segStep
                    ⟨some (dominantOf b).1, b.timestamp, [dominantOf b],
                     []⟩).emotion_segments⟩ := by
              rw [hsplit, List.foldl_append, hrun, List.foldl_cons,
                segStep_change _ _ _ _ b (dominantOf a).1 rfl hbne,
                List.nil_append,
                foldl_segStep_segments_pull]
            obtain ⟨ce, hce⟩ := Option.isSome_iff_exists.mp
              (foldl_segStep_isSome rest₂
                ⟨some (dominantOf b).1, b.timestamp, [dominantOf b], []⟩
                (by simp))
            have hLHS : timelineSorted (a :: rest) =
                closeSeg a.timestamp b.timestamp (dominantOf a).1
                  ((a :: rest.takeWhile
                    (fun x => (dominantOf x).1 == (dominantOf a).1)).map
                    dominantOf) ::
                timelineSorted (b :: rest₂) := by
              rw [timelineSorted, hlast, hfold]
              rw [timelineSorted, hlastbr, hfoldT]
              simp only [hce]
              simp
            rw [rleSpec, dif_neg hdrop]
            simp only [hbr, List.head_cons]
            rw [hLHS, ih (b :: rest₂) hlen₂]

instance : Inhabited FrameAnalysis := ⟨⟨0, 0, 0, 0⟩⟩

instance : Inhabited EmotionSegment := ⟨⟨0, 0, 0, "", 0⟩⟩

/-- The winning confidence of a frame is one of its three scores. -/
lemma dominantOf_snd_cases (a : FrameAnalysis) :
    (dominantOf a).2 = a.angry ∨ (dominantOf a).2 = a.sad ∨
      (dominantOf a).2 = a.happy := by
  unfold dominantOf pyMaxFold
  simp only [List.foldl_cons, List.foldl_nil]
  split_ifs <;> simp

/-- The per-frame confidences of a run all in `[0,1]` bound its mean. -/
lemma meanConf_bounds (fs : List (String × ℚ)) (hne : fs ≠ [])
    (h : ∀ x ∈ fs, 0 ≤ x.2 ∧ x.2 ≤ 1) : 0 ≤ meanConf fs ∧ meanConf fs ≤ 1 := by
  rw [meanConf, if_neg hne]
  have hlen : 0 < (fs.length : ℚ) := by
    exact_mod_cast List.length_pos.mpr hne
  constructor
  · apply div_nonneg _ hlen.le
    apply List.sum_nonneg
    intro q hq
    obtain ⟨x, hx, rfl⟩ := List.mem_map.mp hq
    exact (h x hx).1
  · rw [div_le_one hlen]
    calc (fs.map Prod.snd).sum ≤ (fs.map Prod.snd).length • (1 : ℚ) := by
          apply List.sum_le_card_nsmul
          intro q hq
          obtain ⟨x, hx, rfl⟩ := List.mem_map.mp hq
          exact (h x hx).2
      _ = fs.length := by simp

/-- All scores of a frame analysis lie in `[0,1]`. -/
def scoresIn01 (x : FrameAnalysis) : Prop :=
  0 ≤ x.angry ∧ x.angry ≤ 1 ∧ 0 ≤ x.sad ∧ x.sad ≤ 1 ∧ 0 ≤ x.happy ∧ x.happy ≤ 1

lemma dominantOf_snd_bounds (a : FrameAnalysis) (h : scoresIn01 a) :
    0 ≤ (dominantOf a).2 ∧ (dominantOf a).2 ≤ 1 := by
  obtain ⟨h1, h2, h3, h4, h5, h6⟩ := h
  rcases dominantOf_snd_cases a with hc | hc | hc <;> rw [hc] <;> constructor <;>
    assumption

/-- Structure of the run-length encoding on a nonempty sorted input:
nonempty output, first segment starts at the first timestamp, last segment
ends at the last timestamp, contiguity (`end = next start`), telescoping
sum of durations, at most one segment per frame, per-segment duration
facts, start-time order, and confidence bounds when all scores lie in
`[0,1]`. -/
lemma rleSpec_props (l : List FrameAnalysis) (hne : l ≠ [])
    (hs : List.Sorted analysisLe l) :
    rleSpec l ≠ [] ∧
    (rleSpec l).headI.start_time = l.headI.timestamp ∧
    (rleSpec l).getLastI.end_time = l.getLastI.timestamp ∧
    List.Chain' (fun s t => s.end_time = t.start_time) (rleSpec l) ∧
    ((rleSpec l).map EmotionSegment.duration).sum =
      l.getLastI.timestamp - l.headI.timestamp ∧
    (rleSpec l).length ≤ l.length ∧
    (∀ seg ∈ rleSpec l, seg.duration = seg.end_time - seg.start_time ∧
      0 ≤ seg.duration ∧ l.headI.timestamp ≤ seg.start_time) ∧
    List.Sorted (fun s t => s.start_time ≤ t.start_time) (rleSpec l) ∧
    ((∀ x ∈ l, scoresIn01 x) →
      ∀ seg ∈ rleSpec l, 0 ≤ seg.confidence ∧ seg.confidence ≤ 1) := by
  suffices H : ∀ n (l : List FrameAnalysis), l.length ≤ n → l ≠ [] →
      List.Sorted analysisLe l →
      rleSpec l ≠ [] ∧
      (rleSpec l).headI.start_time = l.headI.timestamp ∧
      (rleSpec l).getLastI.end_time = l.getLastI.timestamp ∧
      List.Chain' (fun s t => s.end_time = t.start_time) (rleSpec l) ∧
      ((rleSpec l).map EmotionSegment.duration).sum =
        l.getLastI.timestamp - l.headI.timestamp ∧
      (rleSpec l).length ≤ l.length ∧
      (∀ seg ∈ rleSpec l, seg.duration = seg.end_time - seg.start_time ∧
        0 ≤ seg.duration ∧ l.headI.timestamp ≤ seg.start_time) ∧
      List.Sorted (fun s t => s.start_time ≤ t.start_time) (rleSpec l) ∧
      ((∀ x ∈ l, scoresIn01 x) →
        ∀ seg ∈ rleSpec l, 0 ≤ seg.confidence ∧ seg.confidence ≤ 1) from
    H l.length l le_rfl hne hs
  intro n
  induction n with
  | zero =>
      intro l hl hne _
      exact absurd (List.eq_nil_of_length_eq_zero (Nat.le_zero.mp hl)) hne
  | succ n ih =>
      intro l hl hne hs
      cases l with
      | nil => exact absurd rfl hne
      | cons a rest =>
          by_cases hdrop :
            rest.dropWhile (fun b => (dominantOf b).1 == (dominantOf a).1) = []
          · have htw : rest.takeWhile
                (fun b => (dominantOf b).1 == (dominantOf a).1) = rest := by
              have h2 := List.takeWhile_append_dropWhile
                (p := fun b => (dominantOf b).1 == (dominantOf a).1) (l := rest)
              rw [hdrop, List.append_nil] at h2
              exact h2
            have hrle : rleSpec (a :: rest) =
                [closeSeg a.timestamp
                  ((a :: rest).getLast (List.cons_ne_nil a rest)).timestamp
                  (dominantOf a).1 ((a :: rest).map dominantOf)] := by
              rw [rleSpec, dif_pos hdrop]
              simp only [htw]
            have hts : a.timestamp ≤
                ((a :: rest).getLast (List.cons_ne_nil a rest)).timestamp := by
              have hmem := List.getLast_mem (List.cons_ne_nil a rest)
              rcases List.mem_cons.mp hmem with h | h
              · rw [h]
              · exact List.rel_of_sorted_cons hs _ h
            have hgl : (a :: rest).getLastI =
                (a :: rest).getLast (List.cons_ne_nil a rest) := by
              rw [List.getLastI_eq_getLast?,
                List.getLast?_eq_getLast (a :: rest) (List.cons_ne_nil a rest)]
            rw [hrle]
            refine ⟨by simp, by simp [closeSeg], ?_, List.chain'_singleton _,
              ?_, by simp, ?_, List.sorted_singleton _, ?_⟩
            · rw [hgl]
              simp [List.getLastI_eq_getLast?, closeSeg]
            · rw [hgl]
              simp [closeSeg]
            · intro seg hseg
              rw [List.mem_singleton] at hseg
              subst hseg
              refine ⟨rfl, ?_, by simp [closeSeg]⟩
              simp only [closeSeg]
              linarith
            · intro hb seg hseg
              rw [List.mem_singleton] at hseg
              subst hseg
              simp only [closeSeg]
              apply meanConf_bounds
              · simp
              · intro x hx
                obtain ⟨y, hy, rfl⟩ := List.mem_map.mp hx
                exact dominantOf_snd_bounds y (hb y hy)
          · obtain ⟨b, rest₂, hbr⟩ : ∃ b rest₂,
                rest.dropWhile (fun x => (dominantOf x).1 == (dominantOf a).1) =
                  b :: rest₂ := by
              cases hh : rest.dropWhile
                  (fun x => (dominantOf x).1 == (dominantOf a).1) with
              | nil => exact absurd hh hdrop
              | cons b t => exact ⟨b, t, rfl⟩
            have hsub₂ : List.Sublist (b :: rest₂) (a :: rest) := by
              rw [← hbr]
              exact (List.dropWhile_sublist _).cons a
            have hs₂ : List.Sorted analysisLe (b :: rest₂) :=
              List.Pairwise.sublist hsub₂ hs
            have hbmem : b ∈ rest :=
              (List.dropWhile_sublist
                (fun x => (dominantOf x).1 == (dominantOf a).1)).subset
                (by rw [hbr]; exact List.mem_cons_self b rest₂)
            have hab : a.timestamp ≤ b.timestamp :=
              List.rel_of_sorted_cons hs b hbmem
            have hsplit : a :: rest =
                (a :: rest.takeWhile
                  (fun x => (dominantOf x).1 == (dominantOf a).1)) ++
                (b :: rest₂) := by
              rw [← hbr]
              rw [List.cons_append, List.takeWhile_append_dropWhile]
            have hlen₂ : (b :: rest₂).length ≤ n := by
              have hsubl := (List.dropWhile_sublist
                (fun x => (dominantOf x).1 == (dominantOf a).1)
                (l := rest)).length_le
              rw [hbr] at hsubl
              simp only [List.length_cons] at hl hsubl ⊢
              omega
            have hne₂ : (b :: rest₂ : List FrameAnalysis) ≠ [] :=
              List.cons_ne_nil _ _
            have hrle : rleSpec (a :: rest) =
                closeSeg a.timestamp b.timestamp (dominantOf a).1
                  ((a :: rest.takeWhile
                    (fun x => (dominantOf x).1 == (dominantOf a).1)).map
                    dominantOf) ::
                rleSpec (b :: rest₂) := by
              rw [rleSpec, dif_neg hdrop]
              simp only [hbr, List.head_cons]
            obtain ⟨i1, i2, i3, i4, i5, i6, i7, i8, i9⟩ :=
              ih (b :: rest₂) hlen₂ hne₂ hs₂
            obtain ⟨t₀, ts, hts⟩ : ∃ t₀ ts, rleSpec (b :: rest₂) = t₀ :: ts := by
              cases hh : rleSpec (b :: rest₂) with
              | nil => exact absurd hh i1
              | cons t₀ ts => exact ⟨t₀, ts, rfl⟩
            have hgl : (a :: rest).getLastI = (b :: rest₂).getLastI := by
              rw [List.getLastI_eq_getLast?, List.getLastI_eq_getLast?, hsplit,
                List.getLast?_append,
                List.getLast?_eq_getLast (b :: rest₂) hne₂]
              rfl
            have hglseg : (closeSeg a.timestamp b.timestamp (dominantOf a).1
                  ((a :: rest.takeWhile
                    (fun x => (dominantOf x).1 == (dominantOf a).1)).map
                    dominantOf) ::
                rleSpec (b :: rest₂)).getLastI =
                (rleSpec (b :: rest₂)).getLastI := by
              rw [hts]
              rw [List.getLastI_eq_getLast?, List.getLastI_eq_getLast?,
                show (closeSeg a.timestamp b.timestamp (dominantOf a).1
                    ((a :: rest.takeWhile
                      (fun x => (dominantOf x).1 == (dominantOf a).1)).map
                      dominantOf) :: t₀ :: ts) =
                  [closeSeg a.timestamp b.timestamp (dominantOf a).1
                    ((a :: rest.takeWhile
                      (fun x => (dominantOf x).1 == (dominantOf a).1)).map
                      dominantOf)] ++ (t₀ :: ts) from rfl,
                List.getLast?_append,
                List.getLast?_eq_getLast (t₀ :: ts) (List.cons_ne_nil _ _)]
              rfl
            rw [hrle]
            refine ⟨List.cons_ne_nil _ _, by simp [closeSeg], ?_, ?_, ?_, ?_,
              ?_, ?_, ?_⟩
            · rw [hglseg, i3, ← hgl]
            · rw [List.chain'_cons']
              refine ⟨?_, i4⟩
              intro y hy
              rw [hts] at hy
              simp only [List.head?_cons, Option.mem_some_iff] at hy
              subst hy
              have ht₀ : t₀.start_time = b.timestamp := by
                have := i2
                rw [hts] at this
                simpa using this
              rw [ht₀]
              rfl
            · simp only [List.map_cons, List.sum_cons, i5, hgl]
              simp only [closeSeg, List.headI_cons]
              ring
            · simp only [List.length_cons]
              have hsubl := (List.dropWhile_sublist
                (fun x => (dominantOf x).1 == (dominantOf a).1)
                (l := rest)).length_le
              rw [hbr] at hsubl
              simp only [List.length_cons] at hsubl i6
              omega
            · intro seg hseg
              rcases List.mem_cons.mp hseg with h | h
              · subst h
                refine ⟨rfl, ?_, ?_⟩
                · simp only [closeSeg]
                  linarith
                · simp [closeSeg]
              · obtain ⟨hd, hdur, hstart⟩ := i7 seg h
                refine ⟨hd, hdur, ?_⟩
                simp only [List.headI_cons] at hstart ⊢
                linarith
            · rw [List.sorted_cons]
              refine ⟨?_, i8⟩
              intro t ht
              have hstart := (i7 t ht).2.2
              simp only [List.headI_cons] at hstart
              simp only [closeSeg]
              linarith
            · intro hb seg hseg
              rcases List.mem_cons.mp hseg with h | h
              · subst h
                simp only [closeSeg]
                apply meanConf_bounds
                · simp
                · intro x hx
                  obtain ⟨y, hy, rfl⟩ := List.mem_map.mp hx
                  apply dominantOf_snd_bounds
                  apply hb
                  rcases List.mem_cons.mp hy with h' | h'
                  · subst h'; exact List.mem_cons_self _ _
                  · exact List.mem_cons_of_mem a
                      ((List.takeWhile_sublist _).subset h')
              · exact i9 (fun x hx => hb x (hsub₂.subset hx)) seg h

/-- On sorted input (the data-model invariant for persisted frame
results), the segmenter is exactly the run-length encoding. -/
lemma create_emotion_timeline_sorted_eq (l : List FrameAnalysis)
    (hs : List.Sorted analysisLe l) :
    create_emotion_timeline l = rleSpec l := by
  by_cases h : l = []
  · subst h
    rw [create_emotion_timeline, if_pos rfl, rleSpec]
  · rw [create_emotion_timeline, if_neg h, sortAnalyses,
      List.Sorted.insertionSort_eq hs, timelineSorted_eq_rleSpec]

/-- Scenario A input: 5 frames at timestamps 0..4, `happy` dominant for
the first three, `sad` for the last two. -/
def scenarioA : List FrameAnalysis :=
  [⟨0, 1/10, 2/10, 7/10⟩, ⟨1, 1/10, 1/10, 8/10⟩, ⟨2, 2/10, 1/10, 6/10⟩,
   ⟨3, 1/10, 8/10, 1/10⟩, ⟨4, 2/10, 6/10, 2/10⟩]

lemma sorted_scenarioA : List.Sorted analysisLe scenarioA := by
  simp only [scenarioA, List.sorted_cons, analysisLe, List.mem_cons,
    List.mem_singleton, List.not_mem_nil]
  norm_num

lemma create_emotion_timeline_scenarioA :
    create_emotion_timeline scenarioA =
      [{ start_time := 0, end_time := 3, duration := 3,
         dominant_emotion := "happy", confidence := 7/10 },
       { start_time := 3, end_time := 4, duration := 1,
         dominant_emotion := "sad", confidence := 7/10 }] := by
  have h1 : (("happy" : String) = "sad") = False := eq_false (by decide)
  have h2 : (("sad" : String) = "happy") = False := eq_false (by decide)
  have h3 : (("angry" : String) = "happy") = False := eq_false (by decide)
  have h4 : (("happy" : String) = "angry") = False := eq_false (by decide)
  have h5 : (("angry" : String) = "sad") = False := eq_false (by decide)
  have h6 : (("sad" : String) = "angry") = False := eq_false (by decide)
  norm_num [create_emotion_timeline, scenarioA, sortAnalyses,
    List.insertionSort, List.orderedInsert, analysisLe, timelineSorted,
    segStep, dominantOf, pyMaxFold, closeSeg, meanConf, h1, h2, h3, h4, h5, h6,
    List.cons_ne_nil]

/-- Claim C3: for nonempty sorted input the segments come in start_time
order, are contiguous (`segment[i].end_time = segment[i+1].start_time`)
and partition the sampled range (durations sum to last timestamp minus
first); empty input gives empty output, and a single frame gives exactly
one zero-duration segment at that frame's timestamp. -/
theorem create_emotion_timeline_contiguous_partition (l : List FrameAnalysis)
    (hs : List.Sorted analysisLe l) :
    create_emotion_timeline ([] : List FrameAnalysis) = [] ∧
    (∀ a : FrameAnalysis, create_emotion_timeline [a] =
      [{ start_time := a.timestamp, end_time := a.timestamp, duration := 0,
         dominant_emotion := (dominantOf a).1,
         confidence := (dominantOf a).2 }]) ∧
    (l ≠ [] →
      create_emotion_timeline l ≠ [] ∧
      List.Sorted (fun s t => s.start_time ≤ t.start_time)
        (create_emotion_timeline l) ∧
      List.Chain' (fun s t => s.end_time = t.start_time)
        (create_emotion_timeline l) ∧
      ((create_emotion_timeline l).map EmotionSegment.duration).sum =
        l.getLastI.timestamp - l.headI.timestamp) := by
  refine ⟨by rw [create_emotion_timeline, if_pos rfl], ?_, ?_⟩
  · intro a
    have hsa : List.Sorted analysisLe [a] := List.sorted_singleton a
    rw [create_emotion_timeline_sorted_eq [a] hsa, rleSpec,
      dif_pos List.dropWhile_nil]
    simp [closeSeg, meanConf]
  · intro hlne
    have heq := create_emotion_timeline_sorted_eq l hs
    obtain ⟨p1, _, _, p4, p5, _, _, p8, _⟩ := rleSpec_props l hlne hs
    rw [heq]
    exact ⟨p1, p8, p4, p5⟩

/-- Witness for `create_emotion_timeline_contiguous_partition` at the
5-frame Scenario A input. -/
theorem create_emotion_timeline_contiguous_partition_witness :
    create_emotion_timeline ([] : List FrameAnalysis) = [] ∧
    create_emotion_timeline scenarioA ≠ [] ∧
    ((create_emotion_timeline scenarioA).map EmotionSegment.duration).sum =
      scenarioA.getLastI.timestamp - scenarioA.headI.timestamp := by
  have h := create_emotion_timeline_contiguous_partition scenarioA
    sorted_scenarioA
  have h2 := h.2.2 (by simp [scenarioA])
  exact ⟨h.1, h2.1, h2.2.2.2⟩

/-- Claim C4: on sorted input the segmenter is exactly the run-length
encoding that closes the current segment at the changing frame's
timestamp with confidence the mean of the closed run's winning scores —
and on the concrete 5-frame Scenario A it yields precisely
`{0,3,happy,0.7}` and `{3,4,sad,0.7}`. -/
theorem create_emotion_timeline_closes_runs_at_change (l : List FrameAnalysis)
    (hs : List.Sorted analysisLe l) :
    create_emotion_timeline l = rleSpec l ∧
    create_emotion_timeline scenarioA =
      [{ start_time := 0, end_time := 3, duration := 3,
         dominant_emotion := "happy", confidence := 7/10 },
       { start_time := 3, end_time := 4, duration := 1,
         dominant_emotion := "sad", confidence := 7/10 }] :=
  ⟨create_emotion_timeline_sorted_eq l hs, create_emotion_timeline_scenarioA⟩

/-- Witness for `create_emotion_timeline_closes_runs_at_change` at
Scenario A. -/
theorem create_emotion_timeline_closes_runs_at_change_witness :
    List.Sorted analysisLe scenarioA ∧
    create_emotion_timeline scenarioA = rleSpec scenarioA :=
  ⟨sorted_scenarioA,
   (create_emotion_timeline_closes_runs_at_change scenarioA
      sorted_scenarioA).1⟩

/-- Claim C10: when all input scores lie in `[0,1]`, every produced
segment satisfies `duration = end_time - start_time ≥ 0` and
`confidence ∈ [0,1]`, and there are at most as many segments as input
frames. -/
theorem create_emotion_timeline_segment_bounds (l : List FrameAnalysis)
    (hb : ∀ x ∈ l, scoresIn01 x) :
    (∀ seg ∈ create_emotion_timeline l,
      seg.duration = seg.end_time - seg.start_time ∧ 0 ≤ seg.duration ∧
      0 ≤ seg.confidence ∧ seg.confidence ≤ 1) ∧
    (create_emotion_timeline l).length ≤ l.length := by
  by_cases h : l = []
  · subst h
    rw [create_emotion_timeline, if_pos rfl]
    exact ⟨fun seg hseg => absurd hseg (List.not_mem_nil seg), by simp⟩
  · rw [create_emotion_timeline, if_neg h, timelineSorted_eq_rleSpec]
    have hsorted : List.Sorted analysisLe (sortAnalyses l) :=
      List.sorted_insertionSort analysisLe l
    have hperm : List.Perm (sortAnalyses l) l :=
      List.perm_insertionSort analysisLe l
    have hne' : sortAnalyses l ≠ [] := by
      intro hh
      apply h
      have hlen := hperm.length_eq
      rw [hh] at hlen
      exact List.eq_nil_of_length_eq_zero hlen.symm
    have hb' : ∀ x ∈ sortAnalyses l, scoresIn01 x := fun x hx =>
      hb x (hperm.mem_iff.mp hx)
    obtain ⟨_, _, _, _, _, p6, p7, _, p9⟩ :=
      rleSpec_props (sortAnalyses l) hne' hsorted
    refine ⟨?_, ?_⟩
    · intro seg hseg
      obtain ⟨hd, hdur, _⟩ := p7 seg hseg
      obtain ⟨hc0, hc1⟩ := p9 hb' seg hseg
      exact ⟨hd, hdur, hc0, hc1⟩
    · calc (rleSpec (sortAnalyses l)).length ≤ (sortAnalyses l).length := p6
        _ = l.length := hperm.length_eq

/-- Witness for `create_emotion_timeline_segment_bounds` at Scenario A. -/
theorem create_emotion_timeline_segment_bounds_witness :
    (∀ x ∈ scenarioA, scoresIn01 x) ∧
    (create_emotion_timeline scenarioA).length ≤ scenarioA.length := by
  have hb : ∀ x ∈ scenarioA, scoresIn01 x := by
    intro x hx
    simp only [scenarioA, List.mem_cons, List.not_mem_nil, or_false] at hx
    rcases hx with rfl | rfl | rfl | rfl | rfl <;> norm_num [scoresIn01]
  exact ⟨hb, (create_emotion_timeline_segment_bounds scenarioA hb).2⟩

/-- Witness for `analyze_video_sorted_successes`: the sorted-successes
characterization at a concrete working video, and the empty result on the
fps-0 video. -/
theorem analyze_video_sorted_successes_witness :
    (analyze_video envW freshDetector vW 1).1 =
      sortResults (classifiedResults envW freshDetector (extract_frames vW 1)) ∧
    analyze_video envW freshDetector vC2 1 = ([], freshDetector) := by
  have h1 := analyze_video_sorted_successes envW freshDetector vW 1
  have h2 := analyze_video_sorted_successes envW freshDetector vC2 1
  refine ⟨h1.1, h2.2.2.1 ?_⟩
  norm_num [extract_frames, vC2]

/-! ## Aggregator (`analyze_video_emotions`, tasks.py) and summary dominant
    (`EmotionAnalysisSummary.save`, models.py) -/

/-- `result[emotion]` for a frame-result dict; the aggregation loop only
reads keys it has verified to be present (tasks.py lines 63-68), so a
missing key defaults harmlessly. -/
def scoreOf (r : FrameResult) (e : String) : ℚ := (r.scores.lookup e).getD 0

/-- The per-frame dominant-emotion scan of the aggregation loop
(tasks.py lines 76-88): start from `max_value = -1`, iterate the
supported labels in order, replace on strictly greater score. -/
def frame_dominant (r : FrameResult) : Option String :=
  (supported_emotions.foldl
    (fun acc e => if acc.2 < scoreOf r e then (some e, scoreOf r e) else acc)
    ((none : Option String), (-1 : ℚ))).1

/-- `emotion_counts[max_emotion] += 1` on an association list. -/
def incr (counts : List (String × ℕ)) (e : String) : List (String × ℕ) :=
  counts.map fun q => if q.1 = e then (q.1, q.2 + 1) else q

/-- One frame of the aggregation loop: bump the dominant emotion's count
(`if max_emotion:` — a nonempty label string is always truthy). -/
def countStep (counts : List (String × ℕ)) (r : FrameResult) :
    List (String × ℕ) :=
  match frame_dominant r with
  | some e => incr counts e
  | none => counts

/-- The histogram `emotion_counts` of `analyze_video_emotions`
(tasks.py lines 54-91): initialized to zero for every supported emotion,
then one increment per frame at its dominant emotion. -/
def emotion_counts (results : List FrameResult) : List (String × ℕ) :=
  results.foldl countStep (supported_emotions.map fun e => (e, 0))

/-- `emotion_sums[emotion]` accumulated over all frames (tasks.py line 83). -/
def emotion_sum (results : List FrameResult) (e : String) : ℚ :=
  (results.map fun r => scoreOf r e).sum

/-- `emotion_avgs = emotion_sums[e] / num_frames` (tasks.py line 107). -/
def emotion_avg (results : List FrameResult) (e : String) : ℚ :=
  emotion_sum results e / results.length

/-- The overall dominant emotion computed by
`EmotionAnalysisSummary.save` (models.py lines 158-170): Python `max`
over the seven average fields in dict order
`angry, disgust, fear, happy, neutral, sad, surprised`, where the four
unsupported averages are set to `0.0` by the task
(tasks.py lines 119-126). -/
def summary_dominant (results : List FrameResult) : String :=
  (pyMaxFold ("angry", emotion_avg results "angry")
    [("disgust", 0), ("fear", 0), ("happy", emotion_avg results "happy"),
     ("neutral", 0), ("sad", emotion_avg results "sad"),
     ("surprised", 0)]).1

/-- Modelled from the spec: the overall dominant emotion as the spec
words it — the same index-first argmax over the configured label order
`angry, sad, happy` applied to the averages. -/
def spec_overall_dominant (results : List FrameResult) : String :=
  (pyMaxFold ("angry", emotion_avg results "angry")
    [("sad", emotion_avg results "sad"),
     ("happy", emotion_avg results "happy")]).1

lemma lookup_mem_of_some : ∀ (l : List (String × ℚ)) (e : String) (v : ℚ),
    l.lookup e = some v → (e, v) ∈ l := by
  intro l e v
  induction l with
  | nil => intro h; simp [List.lookup] at h
  | cons q l ih =>
      rcases q with ⟨k, b⟩
      intro h
      simp only [List.lookup] at h
      by_cases hk : e == k
      · simp only [hk] at h
        have hek : e = k := beq_iff_eq.mp hk
        have hbv : b = v := Option.some_injective _ h
        subst hek
        subst hbv
        exact List.mem_cons_self _ _
      · have hkf : (e == k) = false := by simpa using hk
        simp only [hkf] at h
        exact List.mem_cons_of_mem _ (ih h)

lemma scoreOf_nonneg (r : FrameResult) (hr : ∀ q ∈ r.scores, (0 : ℚ) ≤ q.2)
    (e : String) : 0 ≤ scoreOf r e := by
  unfold scoreOf
  cases hl : r.scores.lookup e with
  | none => simp
  | some v =>
      simp only [Option.getD_some]
      exact hr _ (lookup_mem_of_some r.scores e v hl)

lemma frame_dominant_some (r : FrameResult)
    (hr : ∀ q ∈ r.scores, (0 : ℚ) ≤ q.2) :
    ∃ e ∈ supported_emotions, frame_dominant r = some e := by
  have h0 := scoreOf_nonneg r hr "angry"
  have hcalc : frame_dominant r = some "angry" ∨
      frame_dominant r = some "sad" ∨ frame_dominant r = some "happy" := by
    unfold frame_dominant supported_emotions
    simp only [List.foldl_cons, List.foldl_nil]
    rw [if_pos (show (-1 : ℚ) < scoreOf r "angry" by linarith)]
    split_ifs <;> simp
  rcases hcalc with h | h | h
  · exact ⟨"angry", by simp [supported_emotions], h⟩
  · exact ⟨"sad", by simp [supported_emotions], h⟩
  · exact ⟨"happy", by simp [supported_emotions], h⟩

lemma incr_keys (c : List (String × ℕ)) (e : String) :
    (incr c e).map Prod.fst = c.map Prod.fst := by
  unfold incr
  rw [List.map_map]
  refine List.map_congr_left fun q _ => ?_
  simp only [Function.comp_apply]
  by_cases h : q.1 = e
  · rw [if_pos h]
  · rw [if_neg h]

lemma incr_unchanged (c : List (String × ℕ)) (e : String)
    (he : e ∉ c.map Prod.fst) : incr c e = c := by
  unfold incr
  have : ∀ q ∈ c, (if q.1 = e then (q.1, q.2 + 1) else q) = q := by
    intro q hq
    rw [if_neg]
    intro hh
    exact he (hh ▸ List.mem_map_of_mem Prod.fst hq)
  rw [List.map_congr_left this]
  simp

lemma incr_sum_of_nodup : ∀ (c : List (String × ℕ)) (e : String),
    (c.map Prod.fst).Nodup → e ∈ c.map Prod.fst →
    ((incr c e).map Prod.snd).sum = ((c.map Prod.snd)).sum + 1 := by
  intro c e
  induction c with
  | nil => intro _ he; simp at he
  | cons q c ih =>
      intro hnd he
      simp only [List.map_cons, List.nodup_cons] at hnd
      by_cases h : q.1 = e
      · have htail : incr c e = c := by
          apply incr_unchanged
          rw [← h]
          exact hnd.1
        simp only [incr, List.map_cons, if_pos h]
        have : (c.map fun q => if q.1 = e then (q.1, q.2 + 1) else q) =
            incr c e := rfl
        rw [this, htail]
        simp only [List.map_cons, List.sum_cons]
        omega
      · have he' : e ∈ c.map Prod.fst := by
          rcases List.mem_cons.mp he with h' | h'
          · exact absurd h'.symm h
          · exact h'
        simp only [incr, List.map_cons, if_neg h]
        have : (c.map fun q => if q.1 = e then (q.1, q.2 + 1) else q) =
            incr c e := rfl
        rw [this]
        simp only [List.map_cons, List.sum_cons]
        rw [ih hnd.2 he']
        omega

lemma emotion_counts_keys_aux : ∀ (results : List FrameResult)
    (init : List (String × ℕ)), init.map Prod.fst = supported_emotions →
    ((results.foldl countStep init).map Prod.fst) = supported_emotions := by
  intro results
  induction results with
  | nil => intro init h; exact h
  | cons r results ih =>
      intro init h
      rw [List.foldl_cons]
      apply ih
      rcases hfd : frame_dominant r with _ | e
      · have hstep : countStep init r = init := by
          unfold countStep
          rw [hfd]
        rw [hstep]
        exact h
      · have hstep : countStep init r = incr init e := by
          unfold countStep
          rw [hfd]
        rw [hstep, incr_keys]
        exact h

lemma emotion_counts_sum_aux : ∀ (results : List FrameResult)
    (init : List (String × ℕ)), init.map Prod.fst = supported_emotions →
    (∀ r ∈ results, ∀ q ∈ r.scores, (0 : ℚ) ≤ q.2) →
    ((results.foldl countStep init).map Prod.snd).sum =
      (init.map Prod.snd).sum + results.length := by
  intro results
  induction results with
  | nil => intro init _ _; simp
  | cons r results ih =>
      intro init hkeys hnn
      rw [List.foldl_cons]
      obtain ⟨e, hes, hfd⟩ := frame_dominant_some r
        (hnn r (List.mem_cons_self r results))
      have hstep : countStep init r = incr init e := by
        unfold countStep
        rw [hfd]
      rw [hstep,
        ih (incr init e) (by rw [incr_keys]; exact hkeys)
          (fun r' hr' => hnn r' (List.mem_cons_of_mem r hr')),
        incr_sum_of_nodup init e (by rw [hkeys]; decide)
          (by rw [hkeys]; exact hes)]
      simp only [List.length_cons]
      omega

/-- Claim C7: the histogram's keys are exactly the configured labels (all
present even at count zero), every frame result has a dominant emotion
and bumps exactly one count, and the counts sum to the number of frame
results exactly. -/
theorem emotion_counts_histogram (results : List FrameResult)
    (hnn : ∀ r ∈ results, ∀ q ∈ r.scores, (0 : ℚ) ≤ q.2) :
    (emotion_counts results).map Prod.fst = supported_emotions ∧
    (∀ r ∈ results, ∃ e ∈ supported_emotions, frame_dominant r = some e) ∧
    ((emotion_counts results).map Prod.snd).sum = results.length := by
  refine ⟨emotion_counts_keys_aux results _ (by simp [supported_emotions]),
    ?_, ?_⟩
  · exact fun r hr => frame_dominant_some r (hnn r hr)
  · have h := emotion_counts_sum_aux results
      (supported_emotions.map fun e => (e, 0)) (by simp [supported_emotions])
      hnn
    rw [emotion_counts, h]
    norm_num [supported_emotions]

/-- Environment in which frames 3 and 7 fail classification. -/
def env10 : Env :=
  { mf := mfW, decodable := fun f => !(f.data == 3) && !(f.data == 7) }

/-- A 10-frame, 1-fps video. -/
def v10 : Video :=
  { path_exists := true, opens := true, fps := 1, frame_count := 10,
    frames := [⟨0⟩, ⟨1⟩, ⟨2⟩, ⟨3⟩, ⟨4⟩, ⟨5⟩, ⟨6⟩, ⟨7⟩, ⟨8⟩, ⟨9⟩] }

lemma extract_frames_v10 :
    extract_frames v10 1 =
      [(⟨0⟩, 0), (⟨1⟩, 1), (⟨2⟩, 2), (⟨3⟩, 3), (⟨4⟩, 4), (⟨5⟩, 5),
       (⟨6⟩, 6), (⟨7⟩, 7), (⟨8⟩, 8), (⟨9⟩, 9)] := by
  norm_num [extract_frames, v10, frame_interval, pyInt, sampleLoop]

lemma analyze_video_v10_eval :
    (analyze_video env10 freshDetector v10 1).1 =
      [⟨0, [("angry", 1), ("sad", 0), ("happy", 0)]⟩,
       ⟨1, [("angry", 1), ("sad", 0), ("happy", 0)]⟩,
       ⟨2, [("angry", 1), ("sad", 0), ("happy", 0)]⟩,
       ⟨4, [("angry", 1), ("sad", 0), ("happy", 0)]⟩,
       ⟨5, [("angry", 1), ("sad", 0), ("happy", 0)]⟩,
       ⟨6, [("angry", 1), ("sad", 0), ("happy", 0)]⟩,
       ⟨8, [("angry", 1), ("sad", 0), ("happy", 0)]⟩,
       ⟨9, [("angry", 1), ("sad", 0), ("happy", 0)]⟩] := by
  simp only [analyze_video, extract_frames_v10]
  rw [if_neg (by simp)]
  norm_num [analyzeStep, process_frame, load_model, env10, mfW, freshDetector,
    supported_emotions, List.zip, List.zipWith, sortResults,
    List.insertionSort, List.orderedInsert, resultLe]

/-- Witness for `emotion_counts_histogram`, instantiating Scenario C: the
classifier fails on 2 of the 10 sampled frames of `v10`, the analyzer
returns 8 frame results, and the histogram sums to 8, not 10. -/
theorem emotion_counts_histogram_witness :
    (∀ r ∈ (analyze_video env10 freshDetector v10 1).1, ∀ q ∈ r.scores,
      (0 : ℚ) ≤ q.2) ∧
    (analyze_video env10 freshDetector v10 1).1.length = 8 ∧
    ((emotion_counts (analyze_video env10 freshDetector v10 1).1).map
      Prod.snd).sum = 8 := by
  have hnn : ∀ r ∈ (analyze_video env10 freshDetector v10 1).1,
      ∀ q ∈ r.scores, (0 : ℚ) ≤ q.2 := by
    intro r hr q hq
    have hsc : r.scores = [("angry", (1 : ℚ)), ("sad", 0), ("happy", 0)] := by
      rw [analyze_video_v10_eval] at hr
      simp only [List.mem_cons, List.not_mem_nil, or_false] at hr
      rcases hr with rfl | rfl | rfl | rfl | rfl | rfl | rfl | rfl <;> rfl
    rw [hsc] at hq
    simp only [List.mem_cons, List.not_mem_nil, or_false] at hq
    rcases hq with rfl | rfl | rfl <;> norm_num
  have hlen : (analyze_video env10 freshDetector v10 1).1.length = 8 := by
    rw [analyze_video_v10_eval]
    rfl
  have h := emotion_counts_histogram _ hnn
  exact ⟨hnn, hlen, by rw [h.2.2, hlen]⟩

/-- A single-frame result whose `sad` and `happy` scores tie at 1/2. -/
def resultsC5 : List FrameResult :=
  [⟨0, [("angry", 0), ("sad", 1/2), ("happy", 1/2)]⟩]

lemma avg_resultsC5 :
    emotion_avg resultsC5 "angry" = 0 ∧
    emotion_avg resultsC5 "sad" = 1/2 ∧
    emotion_avg resultsC5 "happy" = 1/2 := by
  have e1 : (("angry" : String) == "angry") = true := by decide
  have e2 : (("sad" : String) == "angry") = false := by decide
  have e3 : (("sad" : String) == "sad") = true := by decide
  have e4 : (("happy" : String) == "angry") = false := by decide
  have e5 : (("happy" : String) == "sad") = false := by decide
  have e6 : (("happy" : String) == "happy") = true := by decide
  norm_num [emotion_avg, emotion_sum, scoreOf, resultsC5, List.lookup,
    e1, e2, e3, e4, e5, e6]

/-- Counterexample to claim C5 as stated: with a single frame scoring
`angry 0, sad 1/2, happy 1/2`, the per-frame dominant emotion (the
segmenter's rule, index-first over `angry, sad, happy`) is `sad`, but the
overall dominant emotion computed by `EmotionAnalysisSummary.save`
resolves the tie over the seven-field order
`angry, disgust, fear, happy, neutral, sad, surprised` and yields
`happy`, not `sad`. -/
theorem summary_dominant_seven_label_counterexample :
    summary_dominant resultsC5 = "happy" ∧
    spec_overall_dominant resultsC5 = "sad" ∧
    summary_dominant resultsC5 ≠ spec_overall_dominant resultsC5 ∧
    (dominantOf ⟨0, 0, 1/2, 1/2⟩).1 = "sad" := by
  obtain ⟨hA, hS, hH⟩ := avg_resultsC5
  have h1 : summary_dominant resultsC5 = "happy" := by
    unfold summary_dominant pyMaxFold
    rw [hA, hS, hH]
    norm_num
  have h2 : spec_overall_dominant resultsC5 = "sad" := by
    unfold spec_overall_dominant pyMaxFold
    rw [hA, hS, hH]
    norm_num
  refine ⟨h1, h2, ?_, ?_⟩
  · rw [h1, h2]
    decide
  · norm_num [dominantOf, pyMaxFold]

/-- Claim C5 (amended): the segmenter's and the histogram's per-frame
dominant computations agree (both deterministic index-first argmax over
`angry, sad, happy` given nonnegative scores); the summary's overall
dominant emotion is the deterministic first-maximum over the seven-field
order `angry, disgust, fear, happy, neutral, sad, surprised` (the four
unsupported averages fixed at 0), so a sad-happy tie above the angry
average resolves to `happy`, while the three-label rule would give
`sad`. -/
theorem dominant_argmax_tiebreak (a : FrameAnalysis) (r : FrameResult)
    (hsc : r.scores = [("angry", a.angry), ("sad", a.sad), ("happy", a.happy)])
    (h0 : 0 ≤ a.angry) (results : List FrameResult)
    (ha0 : 0 ≤ emotion_avg results "angry")
    (hah : emotion_avg results "angry" < emotion_avg results "happy")
    (hsh : emotion_avg results "sad" = emotion_avg results "happy") :
    frame_dominant r = some (dominantOf a).1 ∧
    summary_dominant results = "happy" ∧
    spec_overall_dominant results = "sad" := by
  have e1 : (("angry" : String) == "angry") = true := by decide
  have e2 : (("sad" : String) == "angry") = false := by decide
  have e3 : (("sad" : String) == "sad") = true := by decide
  have e4 : (("happy" : String) == "angry") = false := by decide
  have e5 : (("happy" : String) == "sad") = false := by decide
  have e6 : (("happy" : String) == "happy") = true := by decide
  have sA : scoreOf r "angry" = a.angry := by
    simp [scoreOf, hsc, List.lookup, e1]
  have sS : scoreOf r "sad" = a.sad := by
    simp [scoreOf, hsc, List.lookup, e2, e3]
  have sH : scoreOf r "happy" = a.happy := by
    simp [scoreOf, hsc, List.lookup, e4, e5, e6]
  refine ⟨?_, ?_, ?_⟩
  · unfold frame_dominant dominantOf pyMaxFold supported_emotions
    simp only [List.foldl_cons, List.foldl_nil, sA, sS, sH]
    rw [if_pos (show (-1 : ℚ) < a.angry by linarith)]
    by_cases hc1 : a.angry < a.sad
    · simp only [if_pos hc1]
      by_cases hc2 : a.sad < a.happy
      · simp only [if_pos hc2]
      · simp only [if_neg hc2]
    · simp only [if_neg hc1]
      by_cases hc2 : a.angry < a.happy
      · simp only [if_pos hc2]
      · simp only [if_neg hc2]
  · unfold summary_dominant pyMaxFold
    simp only [List.foldl_cons, List.foldl_nil]
    split_ifs <;> first | rfl | (exfalso; linarith)
  · unfold spec_overall_dominant pyMaxFold
    simp only [List.foldl_cons, List.foldl_nil]
    split_ifs <;> first | rfl | (exfalso; linarith)

/-- Witness for `dominant_argmax_tiebreak` at the concrete tie input. -/
theorem dominant_argmax_tiebreak_witness :
    frame_dominant ⟨0, [("angry", 0), ("sad", 1/2), ("happy", 1/2)]⟩ =
      some (dominantOf ⟨0, 0, 1/2, 1/2⟩).1 ∧
    summary_dominant resultsC5 = "happy" ∧
    spec_overall_dominant resultsC5 = "sad" := by
  obtain ⟨hA, hS, hH⟩ := avg_resultsC5
  have h := dominant_argmax_tiebreak ⟨0, 0, 1/2, 1/2⟩
    ⟨0, [("angry", 0), ("sad", 1/2), ("happy", 1/2)]⟩ rfl (by norm_num)
    resultsC5 (by norm_num [hA]) (by norm_num [hA, hH]) (by norm_num [hS, hH])
  exact ⟨h.1, h.2.1, h.2.2⟩
